import Mathlib

/-!
Verification of the ai4eo-challenge-slovenia repository.

This file shallowly embeds the two scripts of the repository:

* `src/ai4eo/model.py` — the cultivated-land classification pipeline: its
  early-stopping training-control loop (`main`, lines 270-312), the final
  reporting/persistence section (lines 314-319), and the correlation metric
  it delegates to (`sklearn.metrics.matthews_corrcoef`, called at line 242).
* `src/ai4eo/srresnet.py` — the super-resolution network: constructor
  validation (`SRResNet.__init__`) and the value/shape semantics of the
  forward pass (`SRResNet.forward` and its constituent blocks).

Python floats are modelled by `ℚ` where the code only compares and stores
them (validation scores), and by `ℝ` where transcendental functions occur
(the network's activations).  `np.inf`, the initial best score, is modelled
by `Option ℚ` with `none` standing for infinity.
-/

namespace AI4EO

/-! ## Training-control loop of `src/ai4eo/model.py`, `main` (lines 270-312)

The loop state mirrors the Python locals `best_loss`, `best_epoch`,
`patience_count`, `best_model`, `best_preds`.  `best_model` and `best_preds`
are `Option`s because those names are unbound until the first improving
epoch.  `best_epoch` is initialised to `0` at line 271 and never updated by
the source, which the embedding reproduces.  The model and prediction values
are abstract types `M` and `P`. -/

structure TrainState (M P : Type) where
  bestLoss : Option ℚ
  bestEpoch : Nat
  patienceCount : Nat
  bestModel : Option M
  bestPreds : Option P
deriving DecidableEq

def initState {M P : Type} : TrainState M P :=
  { bestLoss := none, bestEpoch := 0, patienceCount := 0
    bestModel := none, bestPreds := none }

/-- The comparison `valid_loss < best_loss` at line 302, with
`best_loss = np.inf` rendered as `none` (every rational is below it). -/
def improves (best : Option ℚ) (v : ℚ) : Bool :=
  match best with
  | none => true
  | some b => decide (v < b)

/-- One epoch's bookkeeping, lines 302-308: on `valid_loss < best_loss` the
model is deep-copied into `best_model`, the predictions retained and the
patience counter reset; otherwise only `patience_count` is incremented. -/
def epochStep {M P : Type} (m : M) (pr : P) (st : TrainState M P) (v : ℚ) :
    TrainState M P :=
  if improves st.bestLoss v then
    { bestLoss := some v, bestEpoch := st.bestEpoch, patienceCount := 0
      bestModel := some m, bestPreds := some pr }
  else
    { st with patienceCount := st.patienceCount + 1 }

/-- The epoch loop, lines 274-312: each element of the list is one epoch's
validation score together with the model and predictions that epoch
produced; after each epoch the loop breaks when
`patience_count == args.patience` (line 310).  `patience` is an `ℤ` since
the CLI accepts `-1`.  Returns the final state and the number of epochs
executed. -/
def runLoop {M P : Type} (patience : ℤ) :
    List (ℚ × M × P) → TrainState M P → TrainState M P × Nat
  | [], st => (st, 0)
  | e :: rest, st =>
    let st' := epochStep e.2.1 e.2.2 st e.1
    if (st'.patienceCount : ℤ) = patience then (st', 1)
    else
      let r := runLoop patience rest st'
      (r.1, r.2 + 1)

/-- The synthetic validation-score sequence of the spec's loop test, paired
with (abstract) per-epoch model and prediction identifiers. -/
def exEpochs : List (ℚ × Nat × Nat) :=
  [(1/2, 0, 0), (2/5, 1, 1), (3/5, 2, 2), (3/5, 3, 3), (3/5, 4, 4)]

/-! ## Final reporting and persistence, lines 314-319

`main` ends with

    if args.nni:
        nni.report_final_result(best_valid_loss)
    save_model_path = os.path.join(args.target_dir, 'best_model.pt')
    torch.save(best_model.state_dict(), save_model_path)

Python resolves each name at use time; a name never assigned in the scope
raises `NameError`.  `mainAssignedNames` transcribes every assignment
target appearing in the body of `main` (including the nested `def` and loop
variables).  `finalSection` runs the tail: the `nni` report first (raising
if `best_valid_loss` is unbound), then the save (raising if `best_model`
is unbound, i.e. no epoch ever improved). -/

def mainAssignedNames : List String :=
  ["predict", "train_dataset", "valid_dataset", "train_loader",
   "valid_loader", "model", "device", "optimizer", "best_loss",
   "best_epoch", "patience_count", "epoch", "start_time", "train_losses",
   "idx", "inputs", "target", "weight", "loss", "_", "train_loss",
   "valid_losses", "preds", "pred", "valid_loss", "best_model",
   "best_preds", "save_model_path", "args"]

def finalSection {M : Type} (nni : Bool) (bound : List String)
    (bestModel : Option M) : Except String M :=
  if nni ∧ "best_valid_loss" ∉ bound then
    .error "NameError: name best_valid_loss is not defined"
  else
    match bestModel with
    | some m => .ok m
    | none => .error "NameError: name best_model is not defined"

/-! ## Seeding and end-to-end determinism, lines 247-249

`main` begins with

    if args.fixed_random_seed:
        np.random.seed(2021)
        torch.manual_seed(1407)

All stochastic choices downstream (the dataset shuffle in `EODataset`, the
parameter initialisation, the `DataLoader` shuffling inside each training
epoch) consume the numpy/torch generator states.  The embedding threads the
two generator states explicitly (as `Nat` seeds) and abstracts the
framework operations as an arbitrary record of state-threading functions,
so determinism is established for any semantics of the libraries. -/

structure MainConfig where
  fixed_random_seed : Bool
  n_valid_patches : Nat
  max_epochs : Nat
  patience : ℤ
  nni : Bool

structure Libs (Patch Model Preds : Type) where
  npShuffle : Nat → List Patch → List Patch × Nat
  torchInit : Nat → Model × Nat
  trainEpoch : Nat → Model → List Patch → Model × Nat
  validScore : Model → List Patch → ℚ × Preds

/-- The epoch loop of `main` with the per-epoch scores produced by the
(abstracted) framework calls instead of a given list; the torch generator
state is threaded through the epochs. -/
def mainLoop {Patch Model Preds : Type} (libs : Libs Patch Model Preds)
    (patience : ℤ) (train valid : List Patch) :
    Nat → Nat → Model → TrainState Model Preds → TrainState Model Preds × Nat
  | 0, _, _, st => (st, 0)
  | fuel + 1, ts, m, st =>
    let tm := libs.trainEpoch ts m train
    let vs := libs.validScore tm.1 valid
    let st' := epochStep tm.1 vs.2 st vs.1
    if (st'.patienceCount : ℤ) = patience then (st', 1)
    else
      let r := mainLoop libs patience train valid fuel tm.2 tm.1 st'
      (r.1, r.2 + 1)

/-- The classification pipeline of `main` from the seeding (lines 247-249)
through the dataset split (`EODataset`, lines 119-124: the first
`n_valid_patches` shuffled patches validate, the rest train) and the epoch
loop; returns the best score, the retained snapshot and the epoch count. -/
def mainRun {Patch Model Preds : Type} (cfg : MainConfig)
    (libs : Libs Patch Model Preds) (data : List Patch)
    (ambient : Nat × Nat) : Option ℚ × Option Model × Nat :=
  let rng := if cfg.fixed_random_seed then (2021, 1407) else ambient
  let sh := libs.npShuffle rng.1 data
  let validData := sh.1.take cfg.n_valid_patches
  let trainData := sh.1.drop cfg.n_valid_patches
  let ini := libs.torchInit rng.2
  let r := mainLoop libs cfg.patience trainData validData cfg.max_epochs
    ini.2 ini.1 initState
  (r.1.bestLoss, r.1.bestModel, r.2)

/-- A concrete instantiation of the framework operations, used to witness
the determinism theorem. -/
def libs0 : Libs Nat Nat Nat :=
  { npShuffle := fun s l => (l.reverse, s + 1)
    torchInit := fun s => (s, s + 1)
    trainEpoch := fun s m _ => (m + s, s + 1)
    validScore := fun m _ => ((m : ℚ) / 7, m) }

def cfg0 : MainConfig :=
  { fixed_random_seed := true, n_valid_patches := 1, max_epochs := 3
    patience := 6, nni := false }

/-! ## The correlation metric, `predict` (lines 214-244)

`predict` scores a batch with
`sklearn.metrics.matthews_corrcoef(target, pred, sample_weight=weight)`
(line 242).  The library function is external to the repository; it is
modelled here by its implementation contract: labels are the distinct
values occurring in `y_true` and `y_pred`, a sample-weighted confusion
matrix `C` is formed, and with `t = C.sum(axis=1)`, `p = C.sum(axis=0)`,
`c = trace(C)`, `s = p.sum()` the score is
`(c*s - t.p) / sqrt((s^2 - p.p) * (s^2 - t.t))`, with `0.0` returned
whenever the quantity under the square root vanishes (the degenerate
zero-variance case).  Weights and labels are rationals; the square root
forces the result into `ℝ`. -/

def rows (t p w : List ℚ) : List (ℚ × ℚ × ℚ) := t.zip (p.zip w)

def classes (t p : List ℚ) : List ℚ := (t ++ p).dedup

/-- Sample-weighted confusion count: total weight of samples with true
label `a` and predicted label `b`. -/
def conf (t p w : List ℚ) (a b : ℚ) : ℚ :=
  ((rows t p w).map (fun r => if r.1 = a ∧ r.2.1 = b then r.2.2 else 0)).sum

/-- Column sum of the confusion matrix (`p_sum` in sklearn). -/
def pSum (t p w : List ℚ) (b : ℚ) : ℚ :=
  ((classes t p).map (fun a => conf t p w a b)).sum

/-- Row sum of the confusion matrix (`t_sum` in sklearn). -/
def tSum (t p w : List ℚ) (a : ℚ) : ℚ :=
  ((classes t p).map (fun b => conf t p w a b)).sum

def nCorrect (t p w : List ℚ) : ℚ :=
  ((classes t p).map (fun a => conf t p w a a)).sum

def nSamples (t p w : List ℚ) : ℚ :=
  ((classes t p).map (fun b => pSum t p w b)).sum

def covYtyp (t p w : List ℚ) : ℚ :=
  nCorrect t p w * nSamples t p w -
    ((classes t p).map (fun a => tSum t p w a * pSum t p w a)).sum

def covYpyp (t p w : List ℚ) : ℚ :=
  nSamples t p w ^ 2 - ((classes t p).map (fun b => pSum t p w b ^ 2)).sum

def covYtyt (t p w : List ℚ) : ℚ :=
  nSamples t p w ^ 2 - ((classes t p).map (fun a => tSum t p w a ^ 2)).sum

/-- `matthews_corrcoef(t, p, sample_weight = w)` as called at line 242. -/
noncomputable def mcc (t p w : List ℚ) : ℝ :=
  if covYpyp t p w * covYtyt t p w = 0 then 0
  else (covYtyp t p w : ℝ) / Real.sqrt ((covYtyt t p w * covYpyp t p w : ℚ) : ℝ)

/-! ## The super-resolution network, `src/ai4eo/srresnet.py`

Value-level embedding of the forward pass.  A sample is a channel list of
images, an image a row list of rows of reals; learned parameters are
index functions into `ℝ`.  Spatial convolution uses zero padding of
`kernel_size / 2` and stride 1 (`ConvolutionalBlock`, lines 95-98), batch
normalisation is the per-channel affine normalisation of
`nn.BatchNorm2d` in its evaluation form with the default `eps = 1e-5`,
and pixel shuffle rearranges channel blocks into space
(`nn.PixelShuffle`).  The batch dimension is dropped: every sample of a
batch is processed independently by these operations. -/

abbrev Image := List (List ℝ)
abbrev Tensor := List Image

def chans (t : Tensor) : ℕ := t.length
def height (t : Tensor) : ℕ := (t.headD []).length
def width (t : Tensor) : ℕ := ((t.headD []).headD []).length

/-- Reading a zero-padded image at integer coordinates. -/
def pixel (img : Image) (i j : ℤ) : ℝ :=
  if 0 ≤ i ∧ 0 ≤ j then (img.getD i.toNat []).getD j.toNat 0 else 0

def grid (n m : ℕ) (f : ℕ → ℕ → ℝ) : List (List ℝ) :=
  (List.range n).map fun i => (List.range m).map (f i)

def stack (c : ℕ) (g : ℕ → Image) : Tensor := (List.range c).map g

/-- Output spatial extent of a stride-1 convolution with padding
`k / 2`: `n + 2 * (k / 2) - k + 1`. -/
def convOut (n k : ℕ) : ℕ := n + 2 * (k / 2) + 1 - k

/-- The learned parameters of one `ConvolutionalBlock` (convolution
weights and bias, the batch-norm statistics and affine parameters, and
the PReLU slope). -/
structure ConvBlockParams where
  weight : ℕ → ℕ → ℕ → ℕ → ℝ
  bias : ℕ → ℝ
  bnMean : ℕ → ℝ
  bnVar : ℕ → ℝ
  bnWeight : ℕ → ℝ
  bnBias : ℕ → ℝ
  slope : ℝ

/-- `nn.Conv2d(in_channels, out_channels, kernel_size, stride=1,
padding=kernel_size // 2)` as constructed at lines 95-98. -/
noncomputable def conv2d (P : ConvBlockParams) (inCh outCh k : ℕ) (x : Tensor) : Tensor :=
  let h := height x
  let w := width x
  let pad : ℤ := (k / 2 : ℕ)
  stack outCh fun o =>
    grid (convOut h k) (convOut w k) fun i j =>
      P.bias o +
        ((List.range inCh).map fun c =>
          ((List.range k).map fun di =>
            ((List.range k).map fun dj =>
              P.weight o c di dj *
                pixel (x.getD c []) ((i : ℤ) + (di : ℤ) - pad)
                  ((j : ℤ) + (dj : ℤ) - pad)).sum).sum).sum

/-- `nn.BatchNorm2d` in evaluation form: per-channel normalisation by the
running statistics followed by the learned affine map. -/
noncomputable def batchNorm (P : ConvBlockParams) (x : Tensor) : Tensor :=
  stack (chans x) fun c =>
    (x.getD c []).map fun row => row.map fun v =>
      (v - P.bnMean c) / Real.sqrt (P.bnVar c + 1 / 100000) * P.bnWeight c + P.bnBias c

def tmap (f : ℝ → ℝ) (x : Tensor) : Tensor :=
  x.map fun img => img.map fun row => row.map f

/-- Elementwise addition of the residual connection (line 183 and
line 247). -/
noncomputable def tadd (x y : Tensor) : Tensor :=
  List.zipWith (List.zipWith (List.zipWith (· + ·))) x y

/-- `nn.PReLU` with learned slope `a`. -/
noncomputable def prelu (a : ℝ) (v : ℝ) : ℝ := if 0 ≤ v then v else a * v

/-- `nn.LeakyReLU(0.2)` (line 107). -/
noncomputable def leakyReLU (v : ℝ) : ℝ := if 0 ≤ v then v else (1 / 5) * v

/-- `nn.Sigmoid` (line 234). -/
noncomputable def sigmoid (v : ℝ) : ℝ := 1 / (1 + Real.exp (-v))

/-- The activation bank admitted by `ConvolutionalBlock` (line 90). -/
inductive Activation | prelu | leakyrelu | tanh

noncomputable def applyActivation :
    Option Activation → ConvBlockParams → Tensor → Tensor
  | none, _, t => t
  | some .prelu, P, t => tmap (prelu P.slope) t
  | some .leakyrelu, _, t => tmap leakyReLU t
  | some .tanh, _, t => tmap Real.tanh t

/-- `ConvolutionalBlock.forward`: convolution, optional batch norm,
optional activation (lines 93-122). -/
noncomputable def convBlock (P : ConvBlockParams) (inCh outCh k : ℕ)
    (bn : Bool) (act : Option Activation) (x : Tensor) : Tensor :=
  applyActivation act P
    (if bn then batchNorm P (conv2d P inCh outCh k x) else conv2d P inCh outCh k x)

/-- `nn.PixelShuffle(r)`: `(C * r * r, H, W)` to `(C, H * r, W * r)` by
channel-to-space rearrangement. -/
def pixelShuffle (r : ℕ) (x : Tensor) : Tensor :=
  stack (chans x / (r * r)) fun c =>
    grid (height x * r) (width x * r) fun i j =>
      ((x.getD (c * (r * r) + (i % r) * r + (j % r)) []).getD (i / r) []).getD (j / r) 0

/-- `ResidualBlock.forward` (lines 174-185): two convolutional blocks
(`PReLU` then no activation, both with batch norm) plus the skip
connection. -/
noncomputable def residualBlock (P1 P2 : ConvBlockParams) (nCh k : ℕ)
    (x : Tensor) : Tensor :=
  let residual := x
  let output := convBlock P1 nCh nCh k true (some .prelu) x
  let output2 := convBlock P2 nCh nCh k true none output
  tadd output2 residual

/-- `SubPixelConvolutionalBlock.forward` (lines 142-152): convolution to
`n_channels * r ^ 2` channels, pixel shuffle by `r`, `PReLU`. -/
noncomputable def subPixelBlock (P : ConvBlockParams) (nCh k r : ℕ)
    (x : Tensor) : Tensor :=
  tmap (prelu P.slope) (pixelShuffle r (conv2d P nCh (nCh * r ^ 2) k x))

/-- The configuration surface of `SRResNet.__init__` (the CLI flags it
reads). -/
structure SRConfig where
  scaling_factor : ℤ
  input_channels : ℕ
  n_channels : ℕ
  large_kernel_size : ℕ
  small_kernel_size : ℕ
  n_blocks : ℕ

/-- The learned parameters of the whole network, one record per
constructed block. -/
structure SRParams where
  cb1 : ConvBlockParams
  res1 : ℕ → ConvBlockParams
  res2 : ℕ → ConvBlockParams
  cb2 : ConvBlockParams
  sub : ℕ → ConvBlockParams
  cb3 : ConvBlockParams

/-- `SRResNet.__init__` validation (lines 204-206): the assert on the
scaling factor fires before any block is built, so an invalid factor
yields no network at all. -/
def srresnetInit (cfg : SRConfig) : Except String SRConfig :=
  if cfg.scaling_factor = 2 ∨ cfg.scaling_factor = 4 ∨ cfg.scaling_factor = 8 then
    .ok cfg
  else
    .error "The scaling factor must be 2, 4, or 8!"

/-- `self.conv_block1` (lines 209-211): large kernel, no batch norm,
`PReLU`. -/
noncomputable def entryBlock (cfg : SRConfig) (p : SRParams) (x : Tensor) : Tensor :=
  convBlock p.cb1 cfg.input_channels cfg.n_channels cfg.large_kernel_size
    false (some .prelu) x

/-- `self.residual_blocks` (lines 214-216): `n_blocks` residual blocks in
sequence. -/
noncomputable def residualChain (cfg : SRConfig) (p : SRParams) (t : Tensor) : Tensor :=
  (List.range cfg.n_blocks).foldl
    (fun acc i => residualBlock (p.res1 i) (p.res2 i) cfg.n_channels
      cfg.small_kernel_size acc) t

/-- `self.conv_block2` (lines 219-220): small kernel, batch norm, no
activation. -/
noncomputable def midBlock (cfg : SRConfig) (p : SRParams) (t : Tensor) : Tensor :=
  convBlock p.cb2 cfg.n_channels cfg.n_channels cfg.small_kernel_size true none t

/-- `self.subpixel_convolutional_blocks` (lines 222-227):
`int(log2(scaling_factor))` sub-pixel blocks, each upscaling by 2. -/
noncomputable def upscaleChain (cfg : SRConfig) (p : SRParams) (t : Tensor) : Tensor :=
  (List.range (Nat.log2 cfg.scaling_factor.toNat)).foldl
    (fun acc i => subPixelBlock (p.sub i) cfg.n_channels
      cfg.small_kernel_size 2 acc) t

/-- `SRResNet.forward` (lines 236-252): entry block, residual chain,
mid block, long skip connection, upscaling chain, final single-channel
block with `Tanh`, then `Sigmoid`. -/
noncomputable def srForward (cfg : SRConfig) (p : SRParams) (lrImgs : Tensor) : Tensor :=
  let output := entryBlock cfg p lrImgs
  let residual := output
  let output2 := residualChain cfg p output
  let output3 := midBlock cfg p output2
  let output4 := tadd output3 residual
  let output5 := upscaleChain cfg p output4
  let srImgs := convBlock p.cb3 cfg.n_channels 1 cfg.large_kernel_size
    false (some .tanh) output5
  tmap sigmoid srImgs

/-- Pointwise predicate over every element of a tensor. -/
def tAll (Q : ℝ → Prop) (t : Tensor) : Prop :=
  ∀ img ∈ t, ∀ row ∈ img, ∀ v ∈ row, Q v

/-- An invalid configuration: the example scale factor 3 with the
default network hyperparameters. -/
def cfg3 : SRConfig :=
  { scaling_factor := 3, input_channels := 3, n_channels := 64
    large_kernel_size := 9, small_kernel_size := 3, n_blocks := 16 }

/-- The default configuration of the CLI: scale factor 4, kernels 9 and
3, 64 channels, 16 residual blocks. -/
def cfg4 : SRConfig :=
  { scaling_factor := 4, input_channels := 3, n_channels := 64
    large_kernel_size := 9, small_kernel_size := 3, n_blocks := 16 }

/-- Zero parameters for one block, for concrete instantiations. -/
noncomputable def P0 : ConvBlockParams :=
  { weight := fun _ _ _ _ => 0, bias := fun _ => 0, bnMean := fun _ => 0
    bnVar := fun _ => 0, bnWeight := fun _ => 0, bnBias := fun _ => 0
    slope := 0 }

/-- Zero parameters for the whole network. -/
noncomputable def params0 : SRParams :=
  { cb1 := P0, res1 := fun _ => P0, res2 := fun _ => P0
    cb2 := P0, sub := fun _ => P0, cb3 := P0 }

/-- A one-channel one-pixel input sample. -/
noncomputable def x0 : Tensor := [[[0]]]

end AI4EO

namespace AI4EO

/-! ## Theorems about the training-control loop -/

/-- C1: the claim reads the metric as higher-is-better, but line 302
compares `valid_loss < best_loss` against an initial `np.inf`: the loop
minimises.  On `[0.5, 0.4, 0.6, 0.6, 0.6]` with `patience = 2` it does NOT
record `0.6` as the best score while stopping after the fifth epoch. -/
theorem early_stopping_example_refuted :
    ¬ ((runLoop 2 exEpochs initState).1.bestLoss = some (3/5) ∧
       (runLoop 2 exEpochs initState).2 = 5) := by
  norm_num [runLoop, epochStep, improves, exEpochs, initState]

/-- C1 (amended): on `[0.5, 0.4, 0.6, 0.6, 0.6]` with `patience = 2` the
loop records `0.4` (produced at the second epoch) as the best score, the
second epoch's model and predictions as the snapshot, and stops after the
fourth epoch — an epoch improves exactly when its score is strictly LOWER
than the best-known score, and the loop halts after `patience` consecutive
non-improving epochs following the last improvement. -/
theorem early_stopping_example_amended :
    (runLoop 2 exEpochs initState).1.bestLoss = some (2/5) ∧
    (runLoop 2 exEpochs initState).1.bestModel = some 1 ∧
    (runLoop 2 exEpochs initState).2 = 4 := by
  norm_num [runLoop, epochStep, improves, exEpochs, initState]

/-- C7: on an improving epoch the stagnation counter is reset to zero and
the current model and validation predictions become the retained best
snapshot together with the new best score; on a stagnant epoch the counter
is incremented and the best score and snapshot are left unchanged. -/
theorem epoch_step_transitions {M P : Type} (m : M) (pr : P)
    (st : TrainState M P) (v : ℚ) :
    (improves st.bestLoss v = true →
      epochStep m pr st v =
        { bestLoss := some v, bestEpoch := st.bestEpoch, patienceCount := 0
          bestModel := some m, bestPreds := some pr }) ∧
    (improves st.bestLoss v = false →
      epochStep m pr st v =
        { bestLoss := st.bestLoss, bestEpoch := st.bestEpoch
          patienceCount := st.patienceCount + 1
          bestModel := st.bestModel, bestPreds := st.bestPreds }) := by
  constructor
  · intro h
    simp [epochStep, h]
  · intro h
    simp [epochStep, h]

/-- Witness for C7: both branches applied at concrete states. -/
theorem epoch_step_transitions_witness :
    epochStep 7 9 (initState : TrainState Nat Nat) (1/2) =
      { bestLoss := some (1/2), bestEpoch := 0, patienceCount := 0
        bestModel := some 7, bestPreds := some 9 } ∧
    epochStep 8 10
      ({ bestLoss := some (1/4), bestEpoch := 0, patienceCount := 0
         bestModel := some 7, bestPreds := some 9 } : TrainState Nat Nat)
      (1/2) =
      { bestLoss := some (1/4), bestEpoch := 0, patienceCount := 1
        bestModel := some 7, bestPreds := some 9 } :=
  ⟨(epoch_step_transitions 7 9 initState (1/2)).1 (by simp [improves, initState]),
   (epoch_step_transitions 8 10 _ (1/2)).2 (by norm_num [improves])⟩

/-- C2: in a run where zero epochs register an improvement (here: an empty
epoch budget), `best_model` is never bound, yet the persistence section
unconditionally evaluates `torch.save(best_model.state_dict(), ...)`: the
run fails with a `NameError` instead of guarding the uninitialised
snapshot. -/
theorem zero_improvement_run_name_error :
    (runLoop 6 [] (initState : TrainState Nat Nat)).1.bestModel = none ∧
    finalSection false mainAssignedNames (none : Option Nat) =
      .error "NameError: name best_model is not defined" := by
  constructor
  · rfl
  · simp [finalSection]

/-- C9: `best_valid_loss` is assigned nowhere in `main` (the best score
lives in `best_loss`), so whatever subset of `main`'s names is bound when
the loop finishes, every nni-enabled run fails with a `NameError` in the
final report, before the best model is persisted. -/
theorem nni_final_report_name_error {M : Type} (bound : List String)
    (bm : Option M) (hb : bound ⊆ mainAssignedNames) :
    finalSection true bound bm =
      .error "NameError: name best_valid_loss is not defined" := by
  have hnot : "best_valid_loss" ∉ bound := by
    intro hmem
    exact (by decide : "best_valid_loss" ∉ mainAssignedNames) (hb hmem)
  simp [finalSection, hnot]

/-- Witness for C9: the full assigned-name environment, with a bound best
model, still fails the final report. -/
theorem nni_final_report_name_error_witness :
    finalSection true mainAssignedNames (some 3) =
      .error "NameError: name best_valid_loss is not defined" :=
  nni_final_report_name_error mainAssignedNames (some 3)
    (List.Subset.refl _)

/-- C10: with `patience = -1` the break test compares the nonnegative
stagnation counter with `-1`, so the early-stop branch never fires and the
loop always consumes the entire epoch budget, whatever the scores. -/
theorem patience_neg_one_never_stops_early {M P : Type}
    (st : TrainState M P) (epochs : List (ℚ × M × P)) :
    (runLoop (-1) epochs st).2 = epochs.length := by
  induction epochs generalizing st with
  | nil => rfl
  | cons e rest ih =>
    have hne : ((epochStep e.2.1 e.2.2 st e.1).patienceCount : ℤ) ≠ -1 := by
      omega
    simp [runLoop, hne, ih]

/-- C8: when the fixed random seed is enabled, the ambient numpy/torch
generator states are overwritten by the constants 2021 and 1407 before any
stochastic choice, so two runs with identical configuration and data
produce identical best score, retained snapshot and epoch count, whatever
generator states the two processes started from. -/
theorem fixed_seed_determinism {Patch Model Preds : Type}
    (cfg : MainConfig) (libs : Libs Patch Model Preds) (data : List Patch)
    (h : cfg.fixed_random_seed = true) (a1 a2 : Nat × Nat) :
    mainRun cfg libs data a1 = mainRun cfg libs data a2 := by
  simp [mainRun, h]

/-- Witness for C8: two concrete runs from different ambient generator
states coincide. -/
theorem fixed_seed_determinism_witness :
    mainRun cfg0 libs0 [1, 2, 3] (0, 0) = mainRun cfg0 libs0 [1, 2, 3] (5, 7) :=
  fixed_seed_determinism cfg0 libs0 [1, 2, 3] rfl (0, 0) (5, 7)

/-! ## Theorems about the correlation metric -/

/-- A sum over a duplicate-free list of a function vanishing away from a
member `c` collapses to the value at `c`. -/
theorem sum_single {α : Type} (l : List α) (g : α → ℚ) (c : α)
    (hnd : l.Nodup) (hc : c ∈ l) (hz : ∀ b ∈ l, b ≠ c → g b = 0) :
    (l.map g).sum = g c := by
  induction l with
  | nil => cases hc
  | cons a l ih =>
    rcases List.mem_cons.1 hc with rfl | hcl
    · have hrest : (l.map g).sum = 0 := by
        apply List.sum_eq_zero
        intro x hx
        obtain ⟨b, hb, rfl⟩ := List.mem_map.1 hx
        exact hz b (List.mem_cons_of_mem _ hb)
          (fun h => (List.nodup_cons.1 hnd).1 (h ▸ hb))
      simp [hrest]
    · have ha : g a = 0 := by
        refine hz a (List.mem_cons_self a l) ?_
        rintro rfl
        exact (List.nodup_cons.1 hnd).1 hcl
      have hrec := ih (List.nodup_cons.1 hnd).2 hcl
        (fun b hb hbc => hz b (List.mem_cons_of_mem _ hb) hbc)
      simp [ha, hrec]

/-- Every sample row formed against a constant prediction vector carries
that constant as its predicted label. -/
theorem rows_pred_const (t w : List ℚ) (c : ℚ) (n : ℕ) :
    ∀ r ∈ rows t (List.replicate n c) w, r.2.1 = c := by
  rintro ⟨a, b, v⟩ hr
  have h2 := (List.of_mem_zip hr).2
  exact List.eq_of_mem_replicate (List.of_mem_zip h2).1

/-- Every sample row formed against a constant target vector carries that
constant as its true label. -/
theorem rows_target_const (p w : List ℚ) (c : ℚ) (n : ℕ) :
    ∀ r ∈ rows (List.replicate n c) p w, r.1 = c := by
  rintro ⟨a, b, v⟩ hr
  exact List.eq_of_mem_replicate (List.of_mem_zip hr).1

/-- With a constant prediction vector the prediction-side covariance
vanishes. -/
theorem covYpyp_pred_const (t w : List ℚ) (c : ℚ) :
    covYpyp t (List.replicate t.length c) w = 0 := by
  set p := List.replicate t.length c with hp
  have hconf : ∀ a b : ℚ, b ≠ c → conf t p w a b = 0 := by
    intro a b hbc
    apply List.sum_eq_zero
    intro x hx
    obtain ⟨r, hr, rfl⟩ := List.mem_map.1 hx
    rw [if_neg]
    rintro ⟨-, h2⟩
    exact hbc ((rows_pred_const t w c t.length r hr) ▸ h2.symm ▸ rfl)
  have hps : ∀ b : ℚ, b ≠ c → pSum t p w b = 0 := by
    intro b hbc
    apply List.sum_eq_zero
    intro x hx
    obtain ⟨a, _, rfl⟩ := List.mem_map.1 hx
    exact hconf a b hbc
  cases t with
  | nil =>
    simp [covYpyp, nSamples, pSum, conf, classes, rows, hp]
  | cons x t' =>
    have hcmem : c ∈ classes (x :: t') p := by
      rw [classes, List.mem_dedup]
      exact List.mem_append_right _ (by simp [hp])
    have hnd := List.nodup_dedup ((x :: t') ++ p)
    have hns : nSamples (x :: t') p w = pSum (x :: t') p w c :=
      sum_single _ _ c hnd hcmem (fun b _ hbc => hps b hbc)
    have hsq : ((classes (x :: t') p).map (fun b => pSum (x :: t') p w b ^ 2)).sum
        = pSum (x :: t') p w c ^ 2 :=
      sum_single _ _ c hnd hcmem (fun b _ hbc => by rw [hps b hbc]; ring)
    rw [covYpyp, hns, hsq, sub_self]

/-- With a constant target vector the target-side covariance vanishes. -/
theorem covYtyt_target_const (p w : List ℚ) (c : ℚ) :
    covYtyt (List.replicate p.length c) p w = 0 := by
  set t := List.replicate p.length c with ht
  have hconf : ∀ a b : ℚ, a ≠ c → conf t p w a b = 0 := by
    intro a b hac
    apply List.sum_eq_zero
    intro x hx
    obtain ⟨r, hr, rfl⟩ := List.mem_map.1 hx
    rw [if_neg]
    rintro ⟨h1, -⟩
    exact hac ((rows_target_const p w c p.length r hr) ▸ h1.symm ▸ rfl)
  have hts : ∀ a : ℚ, a ≠ c → tSum t p w a = 0 := by
    intro a hac
    apply List.sum_eq_zero
    intro x hx
    obtain ⟨b, _, rfl⟩ := List.mem_map.1 hx
    exact hconf a b hac
  cases p with
  | nil =>
    simp [covYtyt, nSamples, pSum, tSum, conf, classes, rows, ht]
  | cons x p' =>
    have hcmem : c ∈ classes t (x :: p') := by
      rw [classes, List.mem_dedup]
      exact List.mem_append_left _ (by simp [ht])
    have hnd := List.nodup_dedup (t ++ (x :: p'))
    have hpeq : ∀ b ∈ classes t (x :: p'),
        pSum t (x :: p') w b = conf t (x :: p') w c b := by
      intro b _
      exact sum_single _ _ c hnd hcmem (fun a _ hac => hconf a b hac)
    have hns : nSamples t (x :: p') w = tSum t (x :: p') w c := by
      rw [nSamples, List.map_congr_left hpeq]
      rfl
    have hsq : ((classes t (x :: p')).map (fun a => tSum t (x :: p') w a ^ 2)).sum
        = tSum t (x :: p') w c ^ 2 :=
      sum_single _ _ c hnd hcmem (fun a _ hac => by rw [hts a hac]; ring)
    rw [covYtyt, hns, hsq, sub_self]

/-- On the perfectly matching batch the metric evaluates to `1`. -/
theorem mcc_perfect : mcc [1, 1, 0, 0] [1, 1, 0, 0] [1, 1, 1, 1] = 1 := by
  have h1 : covYtyp [1, 1, 0, 0] [1, 1, 0, 0] [1, 1, 1, 1] = 8 := by
    norm_num [covYtyp, nCorrect, nSamples, pSum, tSum, conf, classes, rows,
      List.dedup_cons_of_mem, List.dedup_cons_of_not_mem]
  have h2 : covYpyp [1, 1, 0, 0] [1, 1, 0, 0] [1, 1, 1, 1] = 8 := by
    norm_num [covYpyp, nSamples, pSum, conf, classes, rows,
      List.dedup_cons_of_mem, List.dedup_cons_of_not_mem]
  have h3 : covYtyt [1, 1, 0, 0] [1, 1, 0, 0] [1, 1, 1, 1] = 8 := by
    norm_num [covYtyt, nSamples, pSum, tSum, conf, classes, rows,
      List.dedup_cons_of_mem, List.dedup_cons_of_not_mem]
  rw [mcc, h1, h2, h3]
  rw [if_neg (by norm_num)]
  rw [show ((8 * 8 : ℚ) : ℝ) = (8 : ℝ) ^ 2 by norm_num]
  rw [Real.sqrt_sq (by norm_num : (0 : ℝ) ≤ 8)]
  norm_num

/-- A constant prediction vector yields score `0`, not an invalid value. -/
theorem mcc_pred_const (t w : List ℚ) (c : ℚ) :
    mcc t (List.replicate t.length c) w = 0 := by
  rw [mcc, if_pos]
  rw [covYpyp_pred_const, zero_mul]

/-- A constant target vector yields score `0`, not an invalid value. -/
theorem mcc_target_const (p w : List ℚ) (c : ℚ) :
    mcc (List.replicate p.length c) p w = 0 := by
  rw [mcc, if_pos]
  rw [covYtyt_target_const, mul_zero]

/-- C5: on `target = [1,1,0,0]`, `prediction = [1,1,0,0]`,
`weight = [1,1,1,1]` the classification metric scores `1.0`, and whenever
all predictions or all targets are constant (zero variance) the score is
`0.0` rather than a NaN or an error being propagated. -/
theorem matthews_corrcoef_spec :
    mcc [1, 1, 0, 0] [1, 1, 0, 0] [1, 1, 1, 1] = 1 ∧
    (∀ (t w : List ℚ) (c : ℚ), mcc t (List.replicate t.length c) w = 0) ∧
    (∀ (p w : List ℚ) (c : ℚ), mcc (List.replicate p.length c) p w = 0) :=
  ⟨mcc_perfect, fun t w c => mcc_pred_const t w c,
    fun p w c => mcc_target_const p w c⟩
/-! ## Theorems about the super-resolution network -/

/-- Head of a mapped range, split on emptiness. -/
theorem headD_map_range {α : Type} (f : ℕ → α) (n : ℕ) (d : α) :
    ((List.range n).map f).headD d = if n = 0 then d else f 0 := by
  cases n with
  | zero => simp
  | succ k => rw [List.range_succ_eq_map]; simp

theorem chans_stack (c : ℕ) (g : ℕ → Image) : chans (stack c g) = c := by
  simp [chans, stack]

theorem height_stack (c : ℕ) (g : ℕ → Image) (hc : 0 < c) :
    height (stack c g) = (g 0).length := by
  unfold height stack
  rw [headD_map_range, if_neg hc.ne']

theorem width_stack (c : ℕ) (g : ℕ → Image) (hc : 0 < c) :
    width (stack c g) = ((g 0).headD []).length := by
  unfold width stack
  rw [headD_map_range, if_neg hc.ne']

theorem length_grid (n m : ℕ) (f : ℕ → ℕ → ℝ) : (grid n m f).length = n := by
  simp [grid]

theorem headD_grid (n m : ℕ) (f : ℕ → ℕ → ℝ) (hn : 0 < n) :
    (grid n m f).headD [] = (List.range m).map (f 0) := by
  unfold grid
  rw [headD_map_range, if_neg hn.ne']

/-- Shape of a convolution output: `outCh` channels of
`convOut h k × convOut w k`. -/
theorem conv2d_dims (P : ConvBlockParams) (inCh outCh k : ℕ) (x : Tensor)
    (ho : 0 < outCh) (hh : 0 < convOut (height x) k) :
    chans (conv2d P inCh outCh k x) = outCh ∧
    height (conv2d P inCh outCh k x) = convOut (height x) k ∧
    width (conv2d P inCh outCh k x) = convOut (width x) k := by
  refine ⟨by simp [conv2d, chans_stack], ?_, ?_⟩
  · simp only [conv2d]
    rw [height_stack _ _ ho, length_grid]
  · simp only [conv2d]
    rw [width_stack _ _ ho, headD_grid _ _ _ hh]
    simp

/-- Batch normalisation preserves the shape. -/
theorem batchNorm_dims (P : ConvBlockParams) (x : Tensor) :
    chans (batchNorm P x) = chans x ∧
    height (batchNorm P x) = height x ∧
    width (batchNorm P x) = width x := by
  rcases x with _ | ⟨img, t⟩
  · simp [batchNorm, stack, chans, height, width]
  · refine ⟨by simp [batchNorm, chans_stack], ?_, ?_⟩
    · rw [batchNorm, height_stack _ _ (by simp [chans])]
      simp [height]
    · rw [batchNorm, width_stack _ _ (by simp [chans])]
      rcases img with _ | ⟨row, rest⟩
      · simp [width]
      · simp [width]

/-- Elementwise maps preserve the shape. -/
theorem tmap_dims (f : ℝ → ℝ) (x : Tensor) :
    chans (tmap f x) = chans x ∧
    height (tmap f x) = height x ∧
    width (tmap f x) = width x := by
  rcases x with _ | ⟨img, t⟩
  · simp [tmap, chans, height, width]
  · rcases img with _ | ⟨row, rest⟩
    · simp [tmap, chans, height, width]
    · simp [tmap, chans, height, width]

/-- The residual addition truncates to the smaller shape. -/
theorem tadd_dims (x y : Tensor) :
    chans (tadd x y) = min (chans x) (chans y) ∧
    height (tadd x y) = min (height x) (height y) ∧
    width (tadd x y) = min (width x) (width y) := by
  rcases x with _ | ⟨a, t⟩ <;> rcases y with _ | ⟨b, u⟩
  · simp [tadd, chans, height, width]
  · simp [tadd, chans, height, width]
  · simp [tadd, chans, height, width]
  · refine ⟨?_, ?_, ?_⟩
    · simp [tadd, chans]
      omega
    · simp [tadd, height]
    · rcases a with _ | ⟨ra, a'⟩ <;> rcases b with _ | ⟨rb, b'⟩ <;>
        simp [tadd, width]

/-- Pixel shuffle by `r` divides the channels by `r * r` and multiplies
both spatial extents by `r`. -/
theorem pixelShuffle_dims (r : ℕ) (x : Tensor)
    (hc : 0 < chans x / (r * r)) (hh : 0 < height x * r) :
    chans (pixelShuffle r x) = chans x / (r * r) ∧
    height (pixelShuffle r x) = height x * r ∧
    width (pixelShuffle r x) = width x * r := by
  refine ⟨by simp [pixelShuffle, chans_stack], ?_, ?_⟩
  · rw [pixelShuffle, height_stack _ _ hc, length_grid]
  · rw [pixelShuffle, width_stack _ _ hc, headD_grid _ _ _ hh]
    simp

theorem applyActivation_dims (act : Option Activation) (P : ConvBlockParams)
    (x : Tensor) :
    chans (applyActivation act P x) = chans x ∧
    height (applyActivation act P x) = height x ∧
    width (applyActivation act P x) = width x := by
  rcases act with _ | a
  · exact ⟨rfl, rfl, rfl⟩
  · cases a <;> exact tmap_dims _ _

/-- Shape of a full convolutional block. -/
theorem convBlock_dims (P : ConvBlockParams) (inCh outCh k : ℕ) (bn : Bool)
    (act : Option Activation) (x : Tensor)
    (ho : 0 < outCh) (hh : 0 < convOut (height x) k) :
    chans (convBlock P inCh outCh k bn act x) = outCh ∧
    height (convBlock P inCh outCh k bn act x) = convOut (height x) k ∧
    width (convBlock P inCh outCh k bn act x) = convOut (width x) k := by
  obtain ⟨c1, h1, w1⟩ := conv2d_dims P inCh outCh k x ho hh
  rw [convBlock]
  obtain ⟨ca, ha, wa⟩ := applyActivation_dims act P
    (if bn then batchNorm P (conv2d P inCh outCh k x) else conv2d P inCh outCh k x)
  rw [ca, ha, wa]
  cases bn
  · simpa using ⟨c1, h1, w1⟩
  · obtain ⟨cb, hb, wb⟩ := batchNorm_dims P (conv2d P inCh outCh k x)
    simp only [if_pos rfl, ite_true]
    rw [cb, hb, wb]
    exact ⟨c1, h1, w1⟩

/-- An odd kernel with padding `k / 2` and stride 1 preserves the spatial
extent. -/
theorem convOut_odd (n k : ℕ) (hk : k % 2 = 1) : convOut n k = n := by
  simp only [convOut]
  omega

/-- A residual block preserves the shape. -/
theorem residualBlock_dims (P1 P2 : ConvBlockParams) (nCh k : ℕ) (x : Tensor)
    (hk : k % 2 = 1) (hn : 0 < nCh) (hcx : chans x = nCh) (hhx : 0 < height x) :
    chans (residualBlock P1 P2 nCh k x) = chans x ∧
    height (residualBlock P1 P2 nCh k x) = height x ∧
    width (residualBlock P1 P2 nCh k x) = width x := by
  have hh1 : 0 < convOut (height x) k := by rw [convOut_odd _ _ hk]; exact hhx
  obtain ⟨c1, h1, w1⟩ :=
    convBlock_dims P1 nCh nCh k true (some .prelu) x hn hh1
  rw [convOut_odd _ _ hk] at h1 w1
  have hh2 : 0 < convOut (height (convBlock P1 nCh nCh k true (some .prelu) x)) k := by
    rw [convOut_odd _ _ hk, h1]; exact hhx
  obtain ⟨c2, h2, w2⟩ := convBlock_dims P2 nCh nCh k true none
    (convBlock P1 nCh nCh k true (some .prelu) x) hn hh2
  rw [convOut_odd _ _ hk, h1] at h2
  rw [convOut_odd _ _ hk, w1] at w2
  obtain ⟨ct, ht, wt⟩ := tadd_dims
    (convBlock P2 nCh nCh k true none (convBlock P1 nCh nCh k true (some .prelu) x)) x
  refine ⟨?_, ?_, ?_⟩ <;> simp only [residualBlock]
  · rw [ct, c2, hcx, min_self]
  · rw [ht, h2, min_self]
  · rw [wt, w2, min_self]

/-- Folding residual blocks preserves the shape. -/
theorem residual_fold_dims (P1s P2s : ℕ → ConvBlockParams) (nCh k : ℕ)
    (l : List ℕ) (t : Tensor) (hk : k % 2 = 1) (hn : 0 < nCh)
    (hct : chans t = nCh) (hht : 0 < height t) :
    chans (l.foldl (fun acc i => residualBlock (P1s i) (P2s i) nCh k acc) t) = chans t ∧
    height (l.foldl (fun acc i => residualBlock (P1s i) (P2s i) nCh k acc) t) = height t ∧
    width (l.foldl (fun acc i => residualBlock (P1s i) (P2s i) nCh k acc) t) = width t := by
  induction l generalizing t with
  | nil => exact ⟨rfl, rfl, rfl⟩
  | cons a l ih =>
    obtain ⟨cr, hr, wr⟩ := residualBlock_dims (P1s a) (P2s a) nCh k t hk hn hct hht
    obtain ⟨ci, hi, wi⟩ := ih (residualBlock (P1s a) (P2s a) nCh k t)
      (by rw [cr, hct]) (by rw [hr]; exact hht)
    simp only [List.foldl_cons]
    exact ⟨by rw [ci, cr], by rw [hi, hr], by rw [wi, wr]⟩

/-- A sub-pixel block (with the factor 2 used by the network) keeps the
channel count and doubles both spatial extents. -/
theorem subPixelBlock_dims (P : ConvBlockParams) (nCh k : ℕ) (x : Tensor)
    (hk : k % 2 = 1) (hn : 0 < nCh) (hhx : 0 < height x) :
    chans (subPixelBlock P nCh k 2 x) = nCh ∧
    height (subPixelBlock P nCh k 2 x) = height x * 2 ∧
    width (subPixelBlock P nCh k 2 x) = width x * 2 := by
  have hh1 : 0 < convOut (height x) k := by rw [convOut_odd _ _ hk]; exact hhx
  obtain ⟨c1, h1, w1⟩ := conv2d_dims P nCh (nCh * 2 ^ 2) k x (by positivity) hh1
  rw [convOut_odd _ _ hk] at h1 w1
  have hcy : chans (conv2d P nCh (nCh * 2 ^ 2) k x) / (2 * 2) = nCh := by
    rw [c1]
    omega
  have hpos : 0 < chans (conv2d P nCh (nCh * 2 ^ 2) k x) / (2 * 2) := by
    rw [hcy]; exact hn
  have hhy : 0 < height (conv2d P nCh (nCh * 2 ^ 2) k x) * 2 := by
    rw [h1]; omega
  obtain ⟨cp, hp, wp⟩ := pixelShuffle_dims 2 (conv2d P nCh (nCh * 2 ^ 2) k x) hpos hhy
  obtain ⟨cm, hm, wm⟩ := tmap_dims (prelu P.slope)
    (pixelShuffle 2 (conv2d P nCh (nCh * 2 ^ 2) k x))
  refine ⟨?_, ?_, ?_⟩ <;> simp only [subPixelBlock]
  · rw [cm, cp, hcy]
  · rw [hm, hp, h1]
  · rw [wm, wp, w1]

/-- Folding `n` sub-pixel blocks multiplies both spatial extents by
`2 ^ n`. -/
theorem upscale_fold_dims (Ps : ℕ → ConvBlockParams) (nCh k : ℕ) (n : ℕ)
    (t : Tensor) (hk : k % 2 = 1) (hn : 0 < nCh) (hct : chans t = nCh)
    (hht : 0 < height t) :
    chans ((List.range n).foldl (fun acc i => subPixelBlock (Ps i) nCh k 2 acc) t) = nCh ∧
    height ((List.range n).foldl (fun acc i => subPixelBlock (Ps i) nCh k 2 acc) t)
      = height t * 2 ^ n ∧
    width ((List.range n).foldl (fun acc i => subPixelBlock (Ps i) nCh k 2 acc) t)
      = width t * 2 ^ n := by
  induction n with
  | zero => refine ⟨hct, by simp, by simp⟩
  | succ n ih =>
    rw [List.range_succ, List.foldl_append]
    obtain ⟨cu, hu, wu⟩ := ih
    obtain ⟨cs, hs2, ws⟩ := subPixelBlock_dims (Ps n) nCh k
      ((List.range n).foldl (fun acc i => subPixelBlock (Ps i) nCh k 2 acc) t) hk hn
      (by rw [hu]; exact mul_pos hht (pow_pos two_pos n))
    refine ⟨?_, ?_, ?_⟩ <;> simp only [List.foldl_cons, List.foldl_nil]
    · rw [cs]
    · rw [hs2, hu, pow_succ]
      ring
    · rw [ws, wu, pow_succ]
      ring

theorem entryBlock_dims (cfg : SRConfig) (p : SRParams) (x : Tensor)
    (hL : cfg.large_kernel_size % 2 = 1) (hn : 0 < cfg.n_channels)
    (hh : 0 < height x) :
    chans (entryBlock cfg p x) = cfg.n_channels ∧
    height (entryBlock cfg p x) = height x ∧
    width (entryBlock cfg p x) = width x := by
  obtain ⟨c1, h1, w1⟩ := convBlock_dims p.cb1 cfg.input_channels cfg.n_channels
    cfg.large_kernel_size false (some .prelu) x hn
    (by rw [convOut_odd _ _ hL]; exact hh)
  rw [convOut_odd _ _ hL] at h1 w1
  exact ⟨c1, h1, w1⟩

theorem residualChain_dims (cfg : SRConfig) (p : SRParams) (t : Tensor)
    (hk : cfg.small_kernel_size % 2 = 1) (hn : 0 < cfg.n_channels)
    (hct : chans t = cfg.n_channels) (hht : 0 < height t) :
    chans (residualChain cfg p t) = chans t ∧
    height (residualChain cfg p t) = height t ∧
    width (residualChain cfg p t) = width t :=
  residual_fold_dims p.res1 p.res2 cfg.n_channels cfg.small_kernel_size
    (List.range cfg.n_blocks) t hk hn hct hht

theorem midBlock_dims (cfg : SRConfig) (p : SRParams) (t : Tensor)
    (hk : cfg.small_kernel_size % 2 = 1) (hn : 0 < cfg.n_channels)
    (hht : 0 < height t) :
    chans (midBlock cfg p t) = cfg.n_channels ∧
    height (midBlock cfg p t) = height t ∧
    width (midBlock cfg p t) = width t := by
  obtain ⟨c1, h1, w1⟩ := convBlock_dims p.cb2 cfg.n_channels cfg.n_channels
    cfg.small_kernel_size true none t hn (by rw [convOut_odd _ _ hk]; exact hht)
  rw [convOut_odd _ _ hk] at h1 w1
  exact ⟨c1, h1, w1⟩

theorem upscaleChain_dims (cfg : SRConfig) (p : SRParams) (t : Tensor)
    (hk : cfg.small_kernel_size % 2 = 1) (hn : 0 < cfg.n_channels)
    (hct : chans t = cfg.n_channels) (hht : 0 < height t) :
    chans (upscaleChain cfg p t) = cfg.n_channels ∧
    height (upscaleChain cfg p t)
      = height t * 2 ^ Nat.log2 cfg.scaling_factor.toNat ∧
    width (upscaleChain cfg p t)
      = width t * 2 ^ Nat.log2 cfg.scaling_factor.toNat :=
  upscale_fold_dims p.sub cfg.n_channels cfg.small_kernel_size
    (Nat.log2 cfg.scaling_factor.toNat) t hk hn hct hht

/-- C4: for every valid scale factor in `{2, 4, 8}` and every input
sample of positive height, the forward pass yields a single-channel
output whose spatial dimensions are exactly the input dimensions times
the scale factor, the upscaling chain being `log2` of the factor many
doubling sub-pixel blocks.  (The kernel sizes are odd, as in the
configuration surface, and the channel width positive.) -/
theorem srresnet_forward_dims (cfg : SRConfig) (p : SRParams) (x : Tensor)
    (hs : cfg.scaling_factor = 2 ∨ cfg.scaling_factor = 4 ∨ cfg.scaling_factor = 8)
    (hL : cfg.large_kernel_size % 2 = 1) (hk : cfg.small_kernel_size % 2 = 1)
    (hn : 0 < cfg.n_channels) (hh : 0 < height x) :
    chans (srForward cfg p x) = 1 ∧
    height (srForward cfg p x) = cfg.scaling_factor.toNat * height x ∧
    width (srForward cfg p x) = cfg.scaling_factor.toNat * width x := by
  have hpow : 2 ^ Nat.log2 cfg.scaling_factor.toNat = cfg.scaling_factor.toNat := by
    rcases hs with h | h | h
    · have h2 : cfg.scaling_factor.toNat = 2 := by omega
      rw [h2]
      norm_num [Nat.log2]
    · have h4 : cfg.scaling_factor.toNat = 4 := by omega
      rw [h4]
      norm_num [Nat.log2]
    · have h8 : cfg.scaling_factor.toNat = 8 := by omega
      rw [h8]
      norm_num [Nat.log2]
  obtain ⟨c1, h1, w1⟩ := entryBlock_dims cfg p x hL hn hh
  obtain ⟨c2, h2, w2⟩ := residualChain_dims cfg p (entryBlock cfg p x) hk hn c1
    (by rw [h1]; exact hh)
  rw [c1] at c2
  rw [h1] at h2
  rw [w1] at w2
  obtain ⟨c3, h3, w3⟩ := midBlock_dims cfg p (residualChain cfg p (entryBlock cfg p x))
    hk hn (by rw [h2]; exact hh)
  rw [h2] at h3
  rw [w2] at w3
  obtain ⟨c4, h4, w4⟩ := tadd_dims
    (midBlock cfg p (residualChain cfg p (entryBlock cfg p x))) (entryBlock cfg p x)
  rw [c3, c1, min_self] at c4
  rw [h3, h1, min_self] at h4
  rw [w3, w1, min_self] at w4
  obtain ⟨c5, h5, w5⟩ := upscaleChain_dims cfg p
    (tadd (midBlock cfg p (residualChain cfg p (entryBlock cfg p x))) (entryBlock cfg p x))
    hk hn c4 (by rw [h4]; exact hh)
  rw [h4] at h5
  rw [w4] at w5
  obtain ⟨c6, h6, w6⟩ := convBlock_dims p.cb3 cfg.n_channels 1 cfg.large_kernel_size
    false (some .tanh)
    (upscaleChain cfg p
      (tadd (midBlock cfg p (residualChain cfg p (entryBlock cfg p x))) (entryBlock cfg p x)))
    Nat.one_pos
    (by rw [convOut_odd _ _ hL, h5]; exact mul_pos hh (pow_pos two_pos _))
  rw [convOut_odd _ _ hL, h5] at h6
  rw [convOut_odd _ _ hL, w5] at w6
  obtain ⟨c7, h7, w7⟩ := tmap_dims sigmoid
    (convBlock p.cb3 cfg.n_channels 1 cfg.large_kernel_size false (some .tanh)
      (upscaleChain cfg p
        (tadd (midBlock cfg p (residualChain cfg p (entryBlock cfg p x)))
          (entryBlock cfg p x))))
  refine ⟨?_, ?_, ?_⟩ <;> simp only [srForward]
  · rw [c7, c6]
  · rw [h7, h6, hpow, Nat.mul_comm]
  · rw [w7, w6, hpow, Nat.mul_comm]

/-- Witness for C4: the default configuration (scale 4, kernels 9 and 3,
64 channels) on a one-pixel sample. -/
theorem srresnet_forward_dims_witness :
    chans (srForward cfg4 params0 x0) = 1 ∧
    height (srForward cfg4 params0 x0) = cfg4.scaling_factor.toNat * height x0 ∧
    width (srForward cfg4 params0 x0) = cfg4.scaling_factor.toNat * width x0 :=
  srresnet_forward_dims cfg4 params0 x0 (Or.inr (Or.inl rfl)) rfl rfl
    (by norm_num [cfg4]) (by norm_num [x0, height])

/-- Every element of an elementwise image of `f` satisfies any predicate
holding on the range of `f`. -/
theorem tAll_tmap (Q : ℝ → Prop) (f : ℝ → ℝ) (t : Tensor)
    (hf : ∀ v, Q (f v)) : tAll Q (tmap f t) := by
  intro img himg row hrow v hv
  obtain ⟨img0, _, rfl⟩ := List.mem_map.1 himg
  obtain ⟨row0, _, rfl⟩ := List.mem_map.1 hrow
  obtain ⟨v0, _, rfl⟩ := List.mem_map.1 hv
  exact hf v0

/-- The logistic function stays within `[0, 1]`. -/
theorem sigmoid_mem_unit (v : ℝ) : 0 ≤ sigmoid v ∧ sigmoid v ≤ 1 := by
  unfold sigmoid
  have hd : 0 < 1 + Real.exp (-v) := by positivity
  constructor
  · positivity
  · rw [div_le_one hd]
    have he := Real.exp_pos (-v)
    linarith

/-- C6: every element of every output of the SRResNet forward pass lies
in `[0, 1]`, because the network ends with the bounding sigmoid applied
after the final single-channel block. -/
theorem srresnet_output_in_unit_interval (cfg : SRConfig) (p : SRParams)
    (x : Tensor) :
    tAll (fun v => 0 ≤ v ∧ v ≤ 1) (srForward cfg p x) := by
  unfold srForward
  exact tAll_tmap _ _ _ sigmoid_mem_unit

/-- C3: for every requested scale factor outside `{2, 4, 8}`,
construction of the network fails immediately with the assertion message,
before any forward pass can be attempted. -/
theorem invalid_scaling_factor_rejected (cfg : SRConfig)
    (h : cfg.scaling_factor ∉ ([2, 4, 8] : List ℤ)) :
    srresnetInit cfg = .error "The scaling factor must be 2, 4, or 8!" := by
  rw [srresnetInit, if_neg]
  simpa using h

/-- Witness for C3: scale factor 3 is rejected. -/
theorem invalid_scaling_factor_rejected_witness :
    srresnetInit cfg3 = .error "The scaling factor must be 2, 4, or 8!" :=
  invalid_scaling_factor_rejected cfg3 (by norm_num [cfg3])

end AI4EO
